import Mathlib

/-
Verification of the audio/video bridge of the c64-kitty repository.

The development shallowly embeds the C sources:
  - src/audio_linux_alsa.c : sample queue (push from the emulator, pop from
    the playback thread), sample conversion, playback period filling;
  - src/audio_macos.c      : the macOS variant of push (sample conversion);
  - src/c64-kitty.c        : base64_encode, the chunking loop of
    kitty_update_display, the pacing computation of main, crt_set_pixel.

C floats are modelled by rationals; C machine integers by Nat/Int with
explicit wrap-around (mod 2^w) where the width matters.  The shared audio
buffer is a list of Int (the C `short` samples); all accesses in the C code
happen under one mutex, so the queue operations are modelled as pure
functions on that list.
-/

namespace C64Kitty

/-! ## Sample queue (src/audio_linux_alsa.c, src/audio_macos.c) -/

/-- MAX_C64_BUFFER_LEN from src/audio_linux_alsa.c line 9 and
src/audio_macos.c line 8: `(1024*64)` samples. -/
def MAX_C64_BUFFER_LEN : Nat := 1024 * 64

/-- C cast of a real value to an integer type: truncation toward zero.
Used to model `(short)(...)` applied to a float expression. -/
def ctrunc (q : ℚ) : Int := if 0 ≤ q then ⌊q⌋ else ⌈q⌉

/-- Sample conversion of the ALSA backend, src/audio_linux_alsa.c line 124:
`(short)(samples[j] * 32767)`. -/
def alsa_sample (a : ℚ) : Int := ctrunc (a * 32767)

/-- Sample conversion of the macOS backend, src/audio_macos.c line 61:
`(short)(samples[j]*32367)`. -/
def macos_sample (a : ℚ) : Int := ctrunc (a * 32367)

/-- audio_from_emulator of src/audio_linux_alsa.c lines 103-129 (the body
runs under the buffer mutex; the realloc is assumed to succeed).  If the
current buffer length is at least MAX_C64_BUFFER_LEN the call drops the
whole batch and signals the overflow indicator (the `printf("!")`), modelled
as the returned Bool; otherwise every converted sample is appended. -/
def audio_from_emulator (q : List Int) (samples : List ℚ) : List Int × Bool :=
  if MAX_C64_BUFFER_LEN ≤ q.length then (q, true)
  else (q ++ samples.map alsa_sample, false)

/-- audio_from_emulator of src/audio_macos.c lines 53-64: identical control
flow to the ALSA variant, but with the macOS sample conversion. -/
def audio_from_emulator_macos (q : List Int) (samples : List ℚ) : List Int × Bool :=
  if MAX_C64_BUFFER_LEN ≤ q.length then (q, true)
  else (q ++ samples.map macos_sample, false)

/-- The consumer side of the queue, i.e. the mutex-protected region of
playback_thread_func, src/audio_linux_alsa.c lines 55-79, parameterized by
the requested count `n` (`samples_to_play` in the C code): copy
`min n length` samples from the front (`samples_to_copy`), move the rest to
the beginning of the buffer, and shrink the length.  Returns the popped
samples and the remaining queue. -/
def pop_up_to (n : Nat) (q : List Int) : List Int × List Int :=
  if 0 < q.length then
    let c := min n q.length
    (q.take c, q.drop c)
  else ([], q)

/-- One iteration of playback_thread_func, src/audio_linux_alsa.c
lines 48-93: the period buffer is zero-filled (`memset`), then its prefix is
overwritten with up to `period` samples popped from the queue.  Returns the
period buffer submitted to `snd_pcm_writei` and the remaining queue. -/
def playback_iteration (period : Nat) (q : List Int) : List Int × List Int :=
  if 0 < q.length then
    let c := min period q.length
    (q.take c ++ List.replicate (period - c) 0, q.drop c)
  else (List.replicate period 0, q)

/-- An operation on the shared sample queue: a producer push (a batch of
float amplitudes from the emulator) or a consumer pop. -/
inductive AudioOp where
  | push : List ℚ → AudioOp
  | pop : Nat → AudioOp

/-- Apply one queue operation (ALSA backend). -/
def applyAudioOp (q : List Int) : AudioOp → List Int
  | AudioOp.push s => (audio_from_emulator q s).1
  | AudioOp.pop n => (pop_up_to n q).2

/-- Run a sequence of queue operations from the empty queue. -/
def runAudioOps (ops : List AudioOp) : List Int := ops.foldl applyAudioOp []

/-! ## Base64 encoder (src/c64-kitty.c lines 49-67) -/

/-- The alphabet `base64_table` of src/c64-kitty.c line 50. -/
def base64_table : List Char :=
  ['A', 'B', 'C', 'D', 'E', 'F', 'G', 'H', 'I', 'J', 'K', 'L', 'M',
   'N', 'O', 'P', 'Q', 'R', 'S', 'T', 'U', 'V', 'W', 'X', 'Y', 'Z',
   'a', 'b', 'c', 'd', 'e', 'f', 'g', 'h', 'i', 'j', 'k', 'l', 'm',
   'n', 'o', 'p', 'q', 'r', 's', 't', 'u', 'v', 'w', 'x', 'y', 'z',
   '0', '1', '2', '3', '4', '5', '6', '7', '8', '9', '+', '/']

/-- Table lookup `base64_table[v]`; in the C code `v` is always below 64. -/
def b64char (v : Nat) : Char := base64_table.getD v 'A'

/-- base64_encode of src/c64-kitty.c lines 49-67.  Each loop iteration
consumes up to three input bytes (`unsigned char`, modelled as Fin 256),
builds the 24-bit `triple` in uint32 arithmetic, and emits four output
characters; positions past the input are zero octets and produce a
trailing one- or two-character pad. -/
def base64_encode : List (Fin 256) → List Char
  | [] => []
  | [a] =>
      let triple := ((a.val <<< 16) + (0 <<< 8) + 0) % 2 ^ 32
      [b64char (triple >>> 18 &&& 63), b64char (triple >>> 12 &&& 63), '=', '=']
  | [a, b] =>
      let triple := ((a.val <<< 16) + (b.val <<< 8) + 0) % 2 ^ 32
      [b64char (triple >>> 18 &&& 63), b64char (triple >>> 12 &&& 63),
       b64char (triple >>> 6 &&& 63), '=']
  | a :: b :: c :: rest =>
      let triple := ((a.val <<< 16) + (b.val <<< 8) + c.val) % 2 ^ 32
      b64char (triple >>> 18 &&& 63) :: b64char (triple >>> 12 &&& 63) ::
      b64char (triple >>> 6 &&& 63) :: b64char (triple &&& 63) ::
      base64_encode rest

/-- Value of a character in the base64 alphabet (position in the table). -/
def b64val (c : Char) : Nat := base64_table.indexOf c

/-- Build a byte from an accumulator, as an 8-bit truncation. -/
def byteOf (n : Nat) : Fin 256 := ⟨n % 256, Nat.mod_lt n (by norm_num)⟩

/-- Modelled from the spec: a standard base64 decoder over the same
64-symbol alphabet (the repository itself contains no decoder; the spec's
round-trip property is stated against "a standard decoder of the same
alphabet").  Groups of four characters are mapped back to three bytes; a
trailing pad of one or two characters yields two bytes or one byte. -/
def base64_decode : List Char → List (Fin 256)
  | c1 :: c2 :: c3 :: c4 :: rest =>
      let v1 := b64val c1
      let v2 := b64val c2
      if c3 = '=' then
        [byteOf (v1 * 4 + v2 / 16)]
      else
        let v3 := b64val c3
        if c4 = '=' then
          [byteOf (v1 * 4 + v2 / 16), byteOf (v2 % 16 * 16 + v3 / 4)]
        else
          let v4 := b64val c4
          byteOf (v1 * 4 + v2 / 16) :: byteOf (v2 % 16 * 16 + v3 / 4) ::
          byteOf (v3 % 4 * 64 + v4) :: base64_decode rest
  | _ => []

/-! ## Kitty protocol chunking (src/c64-kitty.c lines 110-185) -/

/-- The chunking loop of kitty_update_display, src/c64-kitty.c
lines 127-166: while data remains, a record carries the next
`this_size = more_chunks ? 4096 : encoded_size - encoded_offset` payload
characters together with its `m` flag
`more_chunks = (encoded_offset + chunk_size) < encoded_size`. -/
def kitty_chunks (data : List Char) : List (List Char × Bool) :=
  if data.length = 0 then []
  else if 4096 < data.length then
    (data.take 4096, true) :: kitty_chunks (data.drop 4096)
  else [(data, false)]
termination_by data.length
decreasing_by simp [List.length_drop]; omega

/-- Result of one call of kitty_update_display: whether the allocation
failure path reported an error, and the protocol records written to the
output stream. -/
structure EmitResult where
  reported_error : Bool
  records : List (List Char × Bool)

/-- kitty_update_display of src/c64-kitty.c lines 110-185, with the malloc
outcome passed in as `alloc_ok` (external nondeterminism).  On allocation
failure (lines 116-119) the function reports the error and returns before
writing anything; otherwise the framebuffer is base64-encoded and emitted
as chunked records. -/
def kitty_update_display (alloc_ok : Bool) (fb : List (Fin 256)) : EmitResult :=
  if alloc_ok then ⟨false, kitty_chunks (base64_encode fb)⟩
  else ⟨true, []⟩

/-- The display part of one iteration of the main loop, src/c64-kitty.c
lines 384-405: kitty_update_display is called and, whatever it did, the
loop proceeds to the next frame (`frame++`). -/
def pacing_loop_step (alloc_ok : Bool) (frame : Nat) (fb : List (Fin 256)) :
    Nat × EmitResult :=
  (frame + 1, kitty_update_display alloc_ok fb)

/-! ## Pacing computation (src/c64-kitty.c lines 46, 380-399) -/

/-- FRAME_USEC from src/c64-kitty.c line 46. -/
def FRAME_USEC : Nat := 33333

/-- 2^64, the modulus of C uint64_t arithmetic. -/
def U64 : Nat := 2 ^ 64

/-- uint64_t subtraction `a - b` (wrap-around). -/
def usub64 (a b : Nat) : Nat := (a % U64 + U64 - b % U64) % U64

/-- Conversion of a uint64_t value to int64_t (two's complement
reinterpretation), as in `int64_t delta_us = total_us_emulated -
total_us_real;`. -/
def asInt64 (n : Nat) : Int :=
  if n % U64 < 2 ^ 63 then (n % U64 : Int) else (n % U64 : Int) - (U64 : Int)

/-- The accumulation `total_us_emulated += FRAME_USEC` of src/c64-kitty.c
line 387: total emulated microseconds after k iterations. -/
def total_us_emulated_after : Nat → Nat
  | 0 => 0
  | k + 1 => total_us_emulated_after k + FRAME_USEC

/-- The end-of-iteration pacing computation of src/c64-kitty.c
lines 396-399: `delta_us = total_us_emulated - total_us_real` (uint64
difference read as int64), `to_sleep_us = FRAME_USEC + delta_us`, and
`usleep(to_sleep_us)` exactly when `to_sleep_us > 0`.  Returns the slept
microseconds, or none when the loop proceeds immediately. -/
def pacing_decision (total_us_emulated total_us_real : Nat) : Option Int :=
  let delta_us : Int := asInt64 (usub64 total_us_emulated total_us_real)
  let to_sleep_us : Int := (FRAME_USEC : Int) + delta_us
  if 0 < to_sleep_us then some to_sleep_us else none

/-! ## Pixel callback (src/c64-kitty.c lines 227-237) -/

/-- crt_set_pixel of src/c64-kitty.c lines 227-237, with the screen
dimensions (the `_C64_SCREEN_WIDTH`/`_C64_SCREEN_HEIGHT` constants of the
external chips header) as parameters W and H.  Out-of-range coordinates
leave the framebuffer untouched; otherwise the three bytes at offset
`x*3 + y*W*3` receive the low, middle and high byte of the color. -/
def crt_set_pixel (W H : Nat) (fb : List Nat) (x y : Int) (color : Nat) :
    List Nat :=
  if x < 0 ∨ (W : Int) ≤ x ∨ y < 0 ∨ (H : Int) ≤ y then fb
  else
    ((fb.set (x.toNat * 3 + y.toNat * W * 3) (color &&& 255)).set
      (x.toNat * 3 + y.toNat * W * 3 + 1) (color >>> 8 &&& 255)).set
      (x.toNat * 3 + y.toNat * W * 3 + 2) (color >>> 16 &&& 255)

/-! ## Helper lemmas -/

theorem land63 (x : Nat) : x &&& 63 = x % 64 := by
  have h := Nat.and_pow_two_sub_one_eq_mod x 6
  norm_num at h
  exact h

theorem land255 (x : Nat) : x &&& 255 = x % 256 := by
  have h := Nat.and_pow_two_sub_one_eq_mod x 8
  norm_num at h
  exact h

-- A push that fits below capacity together with the queue appends the
-- whole converted batch (also when the batch is empty and the queue full).
theorem push_append (q : List Int) (s : List ℚ)
    (h : q.length + s.length ≤ MAX_C64_BUFFER_LEN) :
    (audio_from_emulator q s).1 = q ++ s.map alsa_sample := by
  unfold audio_from_emulator
  split
  · rename_i hfull
    have hs : s.length = 0 := by omega
    rw [List.length_eq_zero] at hs
    subst hs
    simp
  · rfl

-- uint64 difference reinterpreted as int64 is the mathematical difference
-- as long as both operands are far from the 2^63 boundary.
theorem asInt64_usub64 (a b : Nat) (ha : a < 2 ^ 62) (hb : b < 2 ^ 62) :
    asInt64 (usub64 a b) = (a : Int) - b := by
  unfold asInt64 usub64 U64
  split_ifs with h
  · omega
  · omega

/-! ## Claim theorems -/

/-- C1 counterexample: the claim "the length after any push is capped at
capacity" fails.  Pushing 65537 samples into the empty queue (a reachable
state) leaves 65537 > 65536 samples in the queue: audio_from_emulator only
drops when the length is already at capacity before the call, it never
trims a batch to fit. -/
theorem C1_claim_counterexample :
    MAX_C64_BUFFER_LEN <
      ((audio_from_emulator [] (List.replicate 65537 (0 : ℚ))).1).length := by
  unfold audio_from_emulator
  rw [if_neg (by simp [MAX_C64_BUFFER_LEN])]
  simp only [List.nil_append, List.length_map, List.length_replicate,
    MAX_C64_BUFFER_LEN]
  norm_num

/-- C1 (amended): for every sequence of push and pop_up_to operations from
the empty queue in which every pushed batch has at most B samples, the
queue length never exceeds capacity - 1 + B: a push is dropped entirely
when the length is already at capacity, so the length can overshoot the
capacity by at most one batch, and pops only shrink the queue. -/
theorem C1_length_bounded (ops : List AudioOp) (B : Nat)
    (hB : ∀ s, AudioOp.push s ∈ ops → s.length ≤ B) :
    (runAudioOps ops).length ≤ MAX_C64_BUFFER_LEN - 1 + B := by
  have key : ∀ (l : List AudioOp) (q : List Int),
      (∀ s, AudioOp.push s ∈ l → s.length ≤ B) →
      q.length ≤ MAX_C64_BUFFER_LEN - 1 + B →
      (l.foldl applyAudioOp q).length ≤ MAX_C64_BUFFER_LEN - 1 + B := by
    intro l
    induction l with
    | nil => intro q _ hq; simpa using hq
    | cons op rest ih =>
        intro q hmem hq
        simp only [List.foldl_cons]
        apply ih
        · intro s hs
          exact hmem s (List.mem_cons_of_mem _ hs)
        · cases op with
          | push s =>
              have hsB : s.length ≤ B := hmem s (List.mem_cons_self _ _)
              simp only [applyAudioOp, audio_from_emulator, MAX_C64_BUFFER_LEN]
              split
              · simpa [MAX_C64_BUFFER_LEN] using hq
              · rename_i hlt
                simp only [List.length_append, List.length_map]
                simp only [MAX_C64_BUFFER_LEN] at hq
                omega
          | pop n =>
              simp only [applyAudioOp, pop_up_to]
              split
              · simp only [List.length_drop]
                omega
              · exact hq
  exact key ops [] hB (by simp)

/-- C1 witness: a run with batches of at most 2 samples stays below
65537 = capacity - 1 + 2. -/
theorem C1_length_bounded_witness :
    (runAudioOps [AudioOp.push [0, 0], AudioOp.pop 1]).length ≤ 65537 := by
  have h := C1_length_bounded [AudioOp.push [0, 0], AudioOp.pop 1] 2 ?hmem
  case hmem =>
    intro s hs
    simp only [List.mem_cons, List.not_mem_nil, or_false] at hs
    rcases hs with h1 | h1
    · injection h1 with h2
      subst h2
      norm_num
    · exact AudioOp.noConfusion h1
  simpa [MAX_C64_BUFFER_LEN] using h

-- The queue contents after a sequence of pushes whose total, together with
-- the starting queue, fits the capacity is the concatenation of the
-- converted batches after the starting queue.
theorem foldl_push_eq (batches : List (List ℚ)) :
    ∀ q : List Int,
      q.length + (batches.map List.length).sum ≤ MAX_C64_BUFFER_LEN →
      batches.foldl (fun q s => (audio_from_emulator q s).1) q
        = q ++ (batches.map (List.map alsa_sample)).join := by
  induction batches with
  | nil => intro q _; simp
  | cons s rest ih =>
      intro q hq
      simp only [List.map_cons, List.sum_cons] at hq
      simp only [List.foldl_cons, List.map_cons, List.join_cons]
      rw [push_append q s (by omega)]
      rw [ih (q ++ s.map alsa_sample)
        (by simp only [List.length_append, List.length_map]; omega)]
      rw [List.append_assoc]

-- Total length of the converted batches.
theorem conv_join_length (batches : List (List ℚ)) :
    ((batches.map (List.map alsa_sample)).join).length
      = (batches.map List.length).sum := by
  simp [List.length_join, List.map_map, Function.comp_def, List.length_map]

/-- C2: FIFO correctness of the sample queue.  (1) After any sequence of
pushes totalling at most the capacity, popping that total returns exactly
the converted samples in push order and empties the queue.  (2) pop_up_to n
removes and returns the first min(n, L) samples and leaves the rest intact
in order.  (3) The period buffer submitted to the device is the popped
samples followed by silence, and the playback iteration leaves exactly the
un-popped remainder in the queue. -/
theorem C2_fifo_pop :
    (∀ batches : List (List ℚ),
      (batches.map List.length).sum ≤ MAX_C64_BUFFER_LEN →
      pop_up_to ((batches.map List.length).sum)
          (batches.foldl (fun q s => (audio_from_emulator q s).1) [])
        = ((batches.map (List.map alsa_sample)).join, []))
    ∧ (∀ (q : List Int) (n : Nat),
        pop_up_to n q = (q.take (min n q.length), q.drop (min n q.length)))
    ∧ (∀ (period : Nat) (q : List Int),
        playback_iteration period q
          = ((pop_up_to period q).1
               ++ List.replicate (period - (pop_up_to period q).1.length) 0,
             (pop_up_to period q).2)) := by
  refine ⟨?_, ?_, ?_⟩
  · intro batches hsum
    rw [foldl_push_eq batches [] (by simpa using hsum)]
    rw [List.nil_append]
    have hlen := conv_join_length batches
    unfold pop_up_to
    by_cases h0 : 0 < ((batches.map (List.map alsa_sample)).join).length
    · rw [if_pos h0]
      rw [← hlen, min_self]
      simp [List.take_length, List.drop_length]
    · rw [if_neg h0]
      have hnil : (batches.map (List.map alsa_sample)).join = [] := by
        rw [← List.length_eq_zero]
        omega
      rw [hnil]
  · intro q n
    unfold pop_up_to
    split
    · rfl
    · rename_i h
      have hq : q = [] := by
        rw [← List.length_eq_zero]
        omega
      subst hq
      simp
  · intro period q
    unfold playback_iteration pop_up_to
    split
    · rename_i h
      have htake : (q.take (min period q.length)).length = min period q.length := by
        rw [List.length_take]
        omega
      rw [htake]
    · simp

/-- C2 witness: pushing the batches [0] and [1] and popping their total
returns exactly the two converted samples and empties the queue. -/
theorem C2_fifo_pop_witness :
    pop_up_to (([[(0 : ℚ)], [1]].map List.length).sum)
        ([[(0 : ℚ)], [1]].foldl (fun q s => (audio_from_emulator q s).1) [])
      = (([[(0 : ℚ)], [1]].map (List.map alsa_sample)).join, []) :=
  C2_fifo_pop.1 [[(0 : ℚ)], [1]] (by norm_num [MAX_C64_BUFFER_LEN])

/-- C3: the claim "the appended Sample is (short)(a * 32767) in every audio
backend variant" holds for the ALSA backend but not for the macOS backend,
which scales by 32367 (src/audio_macos.c line 61): at amplitude 1.0 the
macOS push appends 32367 while the claimed conversion yields 32767.  The
spec's constant 32767 is the evident intent (the ALSA twin of the same
function uses it); the macOS constant is a slip in the code. -/
theorem C3_macos_scale_divergence :
    (audio_from_emulator_macos [] [1]).1 = [32367]
    ∧ (audio_from_emulator [] [1]).1 = [32767]
    ∧ ctrunc (1 * 32767) = 32767 := by
  refine ⟨?_, ?_, ?_⟩
  · simp [audio_from_emulator_macos, MAX_C64_BUFFER_LEN, macos_sample, ctrunc]
  · simp [audio_from_emulator, MAX_C64_BUFFER_LEN, alsa_sample, ctrunc]
  · unfold ctrunc
    norm_num

/-- C4: a push against a queue whose length is already at least the
capacity is a no-op in both backends: the queue is returned unchanged, no
sample is appended, and the overflow indicator is signalled. -/
theorem C4_full_queue_noop (q : List Int) (s : List ℚ)
    (h : MAX_C64_BUFFER_LEN ≤ q.length) :
    audio_from_emulator q s = (q, true)
    ∧ audio_from_emulator_macos q s = (q, true) := by
  refine ⟨?_, ?_⟩
  · simp [audio_from_emulator, h]
  · simp [audio_from_emulator_macos, h]

/-- C4 witness: pushing one sample against a 65536-length queue leaves it
unchanged with the overflow flag set. -/
theorem C4_full_queue_noop_witness :
    audio_from_emulator (List.replicate 65536 0) [1]
      = (List.replicate 65536 0, true) :=
  (C4_full_queue_noop (List.replicate 65536 0) [1]
    (by rw [List.length_replicate]; norm_num [MAX_C64_BUFFER_LEN])).1

/-- C8: the pacing loop accumulates emulated time in steps of the 33333
microsecond quantum, and at the end of an iteration it computes
drift = emulated - real and sleeps quantum + drift microseconds exactly
when that sum is positive, proceeding immediately otherwise (for clock
values far from uint64/int64 wrap-around). -/
theorem C8_pacing_drift (emu rl : Nat) (h1 : emu < 2 ^ 62) (h2 : rl < 2 ^ 62) :
    (∀ k, total_us_emulated_after k = 33333 * k)
    ∧ pacing_decision emu rl =
        if 0 < (33333 : Int) + ((emu : Int) - rl)
        then some ((33333 : Int) + ((emu : Int) - rl)) else none := by
  constructor
  · intro k
    induction k with
    | zero => rfl
    | succ n ih =>
        simp only [total_us_emulated_after, ih, FRAME_USEC]
        ring
  · unfold pacing_decision
    rw [asInt64_usub64 emu rl h1 h2]
    norm_num [FRAME_USEC]

/-- C8 witness: with 66666 emulated and 33333 real microseconds elapsed the
loop sleeps 66666 microseconds. -/
theorem C8_pacing_drift_witness : pacing_decision 66666 33333 = some 66666 := by
  have h := (C8_pacing_drift 66666 33333 (by norm_num) (by norm_num)).2
  rw [h]
  norm_num

/-- C9: when the allocation of the encoding buffer fails,
kitty_update_display reports the failure, writes no record of the frame to
the output stream, and the pacing loop still advances to the next frame. -/
theorem C9_alloc_failure_skips_frame (frame : Nat) (fb : List (Fin 256)) :
    (kitty_update_display false fb).reported_error = true
    ∧ (kitty_update_display false fb).records = []
    ∧ (pacing_loop_step false frame fb).1 = frame + 1
    ∧ (pacing_loop_step false frame fb).2.records = [] := by
  refine ⟨rfl, rfl, rfl, rfl⟩

/-! ## Base64 lemmas -/

-- The alphabet is a left inverse of the table lookup on the 64 valid values.
theorem b64val_b64char_fin : ∀ v : Fin 64, b64val (b64char v.val) = v.val := by
  decide

theorem b64val_b64char (v : Nat) (h : v < 64) : b64val (b64char v) = v :=
  b64val_b64char_fin ⟨v, h⟩

-- No table lookup ever produces the pad character.
theorem b64char_ne_pad (v : Nat) : b64char v ≠ '=' := by
  unfold b64char
  by_cases h : v < base64_table.length
  · have hm : base64_table.getD v 'A' ∈ base64_table := by
      rw [List.getD_eq_getElem base64_table 'A' h]
      exact List.getElem_mem h
    intro hc
    rw [hc] at hm
    exact absurd hm (by decide)
  · rw [List.getD_eq_default base64_table 'A' (le_of_not_lt h)]
    decide

-- The uint32 triple of the encoder, for byte-sized octets.
theorem triple_eq (a b c : Nat) (ha : a < 256) (hb : b < 256) (hc : c < 256) :
    ((a <<< 16) + (b <<< 8) + c) % 2 ^ 32 = a * 2 ^ 16 + b * 2 ^ 8 + c := by
  rw [Nat.shiftLeft_eq, Nat.shiftLeft_eq]
  exact Nat.mod_eq_of_lt (by omega)

-- Every 6-bit field extracted by the encoder is below 64.
theorem field_lt (t k : Nat) : t >>> k &&& 63 < 64 := by
  rw [land63]
  exact Nat.mod_lt _ (by norm_num)

theorem field0_lt (t : Nat) : t &&& 63 < 64 := by
  rw [land63]
  exact Nat.mod_lt _ (by norm_num)

-- Decoding the four 6-bit fields of a triple recovers the three octets.
theorem group_recover (a b c : Nat) (ha : a < 256) (hb : b < 256)
    (hc : c < 256) :
    (((a * 2 ^ 16 + b * 2 ^ 8 + c) >>> 18 &&& 63) * 4
        + ((a * 2 ^ 16 + b * 2 ^ 8 + c) >>> 12 &&& 63) / 16) % 256 = a
    ∧ (((a * 2 ^ 16 + b * 2 ^ 8 + c) >>> 12 &&& 63) % 16 * 16
        + ((a * 2 ^ 16 + b * 2 ^ 8 + c) >>> 6 &&& 63) / 4) % 256 = b
    ∧ (((a * 2 ^ 16 + b * 2 ^ 8 + c) >>> 6 &&& 63) % 4 * 64
        + ((a * 2 ^ 16 + b * 2 ^ 8 + c) &&& 63)) % 256 = c := by
  simp only [land63, Nat.shiftRight_eq_div_pow]
  omega

/-- C5: for every byte sequence, base64_encode emits exactly
4 * ceil(len/3) characters, and the padding is: no pad character at all
when len mod 3 = 0, a trailing run of exactly two pads when len mod 3 = 1,
and a trailing run of exactly one pad when len mod 3 = 2.  (The encoder is
a pure function, so determinism is immediate.) -/
theorem C5_encode_length_padding (bytes : List (Fin 256)) :
    (base64_encode bytes).length = 4 * ((bytes.length + 2) / 3)
    ∧ (bytes.length % 3 = 0 → '=' ∉ base64_encode bytes)
    ∧ (bytes.length % 3 = 1 →
        ∃ p, base64_encode bytes = p ++ ['=', '='] ∧ '=' ∉ p)
    ∧ (bytes.length % 3 = 2 →
        ∃ p, base64_encode bytes = p ++ ['='] ∧ '=' ∉ p) := by
  induction bytes using base64_encode.induct with
  | case1 =>
      refine ⟨rfl, fun _ => by simp [base64_encode], fun h => ?_, fun h => ?_⟩
      · simp at h
      · simp at h
  | case2 a =>
      refine ⟨by norm_num [base64_encode], fun h => by simp at h, fun _ => ?_,
        fun h => by simp at h⟩
      refine ⟨[b64char ((((a.val <<< 16) + (0 <<< 8) + 0) % 2 ^ 32) >>> 18 &&& 63),
               b64char ((((a.val <<< 16) + (0 <<< 8) + 0) % 2 ^ 32) >>> 12 &&& 63)],
              ?_, ?_⟩
      · simp [base64_encode]
      · simp only [List.mem_cons, List.not_mem_nil, or_false]
        rintro (h | h) <;> exact b64char_ne_pad _ h.symm
  | case3 a b =>
      refine ⟨by norm_num [base64_encode], fun h => by simp at h,
        fun h => by simp at h, fun _ => ?_⟩
      refine ⟨[b64char ((((a.val <<< 16) + (b.val <<< 8) + 0) % 2 ^ 32) >>> 18 &&& 63),
               b64char ((((a.val <<< 16) + (b.val <<< 8) + 0) % 2 ^ 32) >>> 12 &&& 63),
               b64char ((((a.val <<< 16) + (b.val <<< 8) + 0) % 2 ^ 32) >>> 6 &&& 63)],
              ?_, ?_⟩
      · simp [base64_encode]
      · simp only [List.mem_cons, List.not_mem_nil, or_false]
        rintro (h | h | h) <;> exact b64char_ne_pad _ h.symm
  | case4 a b c rest ih =>
      obtain ⟨ihlen, ih0, ih1, ih2⟩ := ih
      have hmod : (a :: b :: c :: rest).length % 3 = rest.length % 3 := by
        simp only [List.length_cons]
        omega
      have hlen4 : (base64_encode (a :: b :: c :: rest)).length
          = 4 + (base64_encode rest).length := by
        simp [base64_encode]
        omega
      refine ⟨?_, ?_, ?_, ?_⟩
      · rw [hlen4, ihlen]
        simp only [List.length_cons]
        omega
      · intro h
        rw [hmod] at h
        have hrest := ih0 h
        simp only [base64_encode, List.mem_cons, not_or]
        exact ⟨fun hc => b64char_ne_pad _ hc.symm,
               fun hc => b64char_ne_pad _ hc.symm,
               fun hc => b64char_ne_pad _ hc.symm,
               fun hc => b64char_ne_pad _ hc.symm, hrest⟩
      · intro h
        rw [hmod] at h
        obtain ⟨p, hp, hnp⟩ := ih1 h
        refine ⟨b64char ((((a.val <<< 16) + (b.val <<< 8) + c.val) % 2 ^ 32) >>> 18 &&& 63)
              :: b64char ((((a.val <<< 16) + (b.val <<< 8) + c.val) % 2 ^ 32) >>> 12 &&& 63)
              :: b64char ((((a.val <<< 16) + (b.val <<< 8) + c.val) % 2 ^ 32) >>> 6 &&& 63)
              :: b64char ((((a.val <<< 16) + (b.val <<< 8) + c.val) % 2 ^ 32) &&& 63)
              :: p, ?_, ?_⟩
        · simp only [base64_encode, hp, List.cons_append]
        · simp only [List.mem_cons, not_or]
          exact ⟨fun hc => b64char_ne_pad _ hc.symm,
                 fun hc => b64char_ne_pad _ hc.symm,
                 fun hc => b64char_ne_pad _ hc.symm,
                 fun hc => b64char_ne_pad _ hc.symm, hnp⟩
      · intro h
        rw [hmod] at h
        obtain ⟨p, hp, hnp⟩ := ih2 h
        refine ⟨b64char ((((a.val <<< 16) + (b.val <<< 8) + c.val) % 2 ^ 32) >>> 18 &&& 63)
              :: b64char ((((a.val <<< 16) + (b.val <<< 8) + c.val) % 2 ^ 32) >>> 12 &&& 63)
              :: b64char ((((a.val <<< 16) + (b.val <<< 8) + c.val) % 2 ^ 32) >>> 6 &&& 63)
              :: b64char ((((a.val <<< 16) + (b.val <<< 8) + c.val) % 2 ^ 32) &&& 63)
              :: p, ?_, ?_⟩
        · simp only [base64_encode, hp, List.cons_append]
        · simp only [List.mem_cons, not_or]
          exact ⟨fun hc => b64char_ne_pad _ hc.symm,
                 fun hc => b64char_ne_pad _ hc.symm,
                 fun hc => b64char_ne_pad _ hc.symm,
                 fun hc => b64char_ne_pad _ hc.symm, hnp⟩

/-- C5 witness: the spec scenario: encoding the 2-byte input 0x00 0x01
yields a 4-character result ending in exactly one pad. -/
theorem C5_encode_length_padding_witness :
    (base64_encode [(0 : Fin 256), 1]).length = 4 * ((2 + 2) / 3)
    ∧ ∃ p, base64_encode [(0 : Fin 256), 1] = p ++ ['='] ∧ '=' ∉ p :=
  ⟨(C5_encode_length_padding [0, 1]).1,
   (C5_encode_length_padding [0, 1]).2.2.2 (by norm_num)⟩

/-- C6: decoding the encoder's output with a standard base64 decoder over
the same alphabet reproduces the input exactly, for every byte sequence
(lengths 0, 1, 2, 3 and any other length included). -/
theorem C6_roundtrip (bytes : List (Fin 256)) :
    base64_decode (base64_encode bytes) = bytes := by
  induction bytes using base64_encode.induct with
  | case1 => rfl
  | case2 a =>
      simp only [base64_encode, base64_decode]
      rw [if_pos trivial]
      rw [triple_eq a.val 0 0 a.isLt (by norm_num) (by norm_num)]
      rw [b64val_b64char _ (field_lt _ _), b64val_b64char _ (field_lt _ _)]
      simp only [byteOf, List.cons.injEq, and_true]
      exact Fin.ext (group_recover a.val 0 0 a.isLt (by norm_num) (by norm_num)).1
  | case3 a b =>
      simp only [base64_encode, base64_decode]
      rw [if_neg (b64char_ne_pad _), if_pos trivial]
      rw [triple_eq a.val b.val 0 a.isLt b.isLt (by norm_num)]
      rw [b64val_b64char _ (field_lt _ _), b64val_b64char _ (field_lt _ _),
          b64val_b64char _ (field_lt _ _)]
      have hg := group_recover a.val b.val 0 a.isLt b.isLt (by norm_num)
      simp only [byteOf, List.cons.injEq, and_true]
      exact ⟨Fin.ext hg.1, Fin.ext hg.2.1⟩
  | case4 a b c rest ih =>
      simp only [base64_encode, base64_decode]
      rw [if_neg (b64char_ne_pad _), if_neg (b64char_ne_pad _)]
      rw [triple_eq a.val b.val c.val a.isLt b.isLt c.isLt]
      rw [b64val_b64char _ (field_lt _ _), b64val_b64char _ (field_lt _ _),
          b64val_b64char _ (field_lt _ _), b64val_b64char _ (field0_lt _)]
      have hg := group_recover a.val b.val c.val a.isLt b.isLt c.isLt
      simp only [byteOf, List.cons.injEq]
      exact ⟨Fin.ext hg.1, Fin.ext hg.2.1, Fin.ext hg.2.2, ih⟩

/-! ## Chunking lemmas -/

-- Output length of the encoder (also in C5; kept as a shared lemma).
theorem base64_encode_length (bytes : List (Fin 256)) :
    (base64_encode bytes).length = 4 * ((bytes.length + 2) / 3) := by
  induction bytes using base64_encode.induct with
  | case1 => rfl
  | case2 a => norm_num [base64_encode]
  | case3 a b => norm_num [base64_encode]
  | case4 a b c rest ih =>
      have h4 : (base64_encode (a :: b :: c :: rest)).length
          = 4 + (base64_encode rest).length := by
        simp [base64_encode]
        omega
      rw [h4, ih]
      simp only [List.length_cons]
      omega

theorem kitty_chunks_count (data : List Char) :
    (kitty_chunks data).length = (data.length + 4095) / 4096 := by
  induction data using kitty_chunks.induct with
  | case1 data h =>
      rw [kitty_chunks, if_pos h]
      simp only [List.length_nil]
      omega
  | case2 data h1 h2 ih =>
      rw [kitty_chunks, if_neg h1, if_pos h2]
      simp only [List.length_cons, ih, List.length_drop]
      omega
  | case3 data h1 h2 =>
      rw [kitty_chunks, if_neg h1, if_neg h2]
      simp only [List.length_cons, List.length_nil]
      omega

theorem kitty_chunks_join (data : List Char) :
    ((kitty_chunks data).map Prod.fst).join = data := by
  induction data using kitty_chunks.induct with
  | case1 data h =>
      rw [kitty_chunks, if_pos h]
      simp [List.length_eq_zero.mp h]
  | case2 data h1 h2 ih =>
      rw [kitty_chunks, if_neg h1, if_pos h2]
      simp only [List.map_cons, List.join_cons, ih]
      exact List.take_append_drop 4096 data
  | case3 data h1 h2 =>
      rw [kitty_chunks, if_neg h1, if_neg h2]
      simp

theorem kitty_chunks_flags (data : List Char) (hne : data.length ≠ 0) :
    (kitty_chunks data).map Prod.snd
      = List.replicate ((kitty_chunks data).length - 1) true ++ [false] := by
  induction data using kitty_chunks.induct with
  | case1 data h => exact absurd h hne
  | case2 data h1 h2 ih =>
      rw [kitty_chunks, if_neg h1, if_pos h2]
      have hd : (List.drop 4096 data).length ≠ 0 := by
        simp only [List.length_drop]
        omega
      have hcount : 1 ≤ (kitty_chunks (List.drop 4096 data)).length := by
        rw [kitty_chunks_count]
        simp only [List.length_drop]
        omega
      simp only [List.map_cons, List.length_cons, ih hd]
      rw [show (kitty_chunks (List.drop 4096 data)).length + 1 - 1
          = ((kitty_chunks (List.drop 4096 data)).length - 1) + 1 by omega]
      rw [List.replicate_succ]
      simp
  | case3 data h1 h2 =>
      rw [kitty_chunks, if_neg h1, if_neg h2]
      simp

/-- C7: the chunking loop of kitty_update_display splits any encoded
payload into exactly ceil(len/4096) records; every record but the last
carries the more-data flag and the last does not; the concatenation of the
record payloads is the whole encoding; and a 320x200 RGB framebuffer
(192000 raw bytes) encodes to 256000 characters that are split into exactly
63 records. -/
theorem C7_chunking (data : List Char) (fb : List (Fin 256))
    (hfb : fb.length = 192000) :
    (kitty_chunks data).length = (data.length + 4095) / 4096
    ∧ ((kitty_chunks data).map Prod.fst).join = data
    ∧ (data.length ≠ 0 →
        (kitty_chunks data).map Prod.snd
          = List.replicate ((kitty_chunks data).length - 1) true ++ [false])
    ∧ (base64_encode fb).length = 256000
    ∧ (kitty_chunks (base64_encode fb)).length = 63 := by
  have henc : (base64_encode fb).length = 256000 := by
    rw [base64_encode_length, hfb]
  refine ⟨kitty_chunks_count data, kitty_chunks_join data,
          kitty_chunks_flags data, henc, ?_⟩
  rw [kitty_chunks_count, henc]

/-- C7 witness: a concrete 192000-byte framebuffer is split into exactly
63 records. -/
theorem C7_chunking_witness :
    (kitty_chunks (base64_encode (List.replicate 192000 (0 : Fin 256)))).length
      = 63 :=
  (C7_chunking [] (List.replicate 192000 0)
    (by rw [List.length_replicate])).2.2.2.2

/-! ## Pixel callback lemmas -/

/-- C10: crt_set_pixel on a W x H framebuffer of 3-byte pixels.  For
out-of-range coordinates the framebuffer is unchanged; in range, exactly
the three bytes at offset x*3 + y*W*3 are set to the low, middle and high
byte of the color (R, G, B), and every other byte is untouched. -/
theorem C10_crt_set_pixel (W H : Nat) (fb : List Nat) (x y : Int)
    (color : Nat) (hfb : fb.length = W * H * 3) :
    ((x < 0 ∨ (W : Int) ≤ x ∨ y < 0 ∨ (H : Int) ≤ y) →
      crt_set_pixel W H fb x y color = fb)
    ∧ (0 ≤ x → x < (W : Int) → 0 ≤ y → y < (H : Int) →
        (crt_set_pixel W H fb x y color).length = fb.length
        ∧ (crt_set_pixel W H fb x y color)[x.toNat * 3 + y.toNat * W * 3]?
            = some (color % 256)
        ∧ (crt_set_pixel W H fb x y color)[x.toNat * 3 + y.toNat * W * 3 + 1]?
            = some (color / 256 % 256)
        ∧ (crt_set_pixel W H fb x y color)[x.toNat * 3 + y.toNat * W * 3 + 2]?
            = some (color / 65536 % 256)
        ∧ ∀ i : Nat, i ≠ x.toNat * 3 + y.toNat * W * 3 →
            i ≠ x.toNat * 3 + y.toNat * W * 3 + 1 →
            i ≠ x.toNat * 3 + y.toNat * W * 3 + 2 →
            (crt_set_pixel W H fb x y color)[i]? = fb[i]?) := by
  constructor
  · intro h
    unfold crt_set_pixel
    rw [if_pos h]
  · intro hx0 hxW hy0 hyH
    unfold crt_set_pixel
    rw [if_neg (by push_neg; exact ⟨hx0, hxW, hy0, hyH⟩)]
    have hxW2 : x.toNat < W := by omega
    have hyH2 : y.toNat < H := by omega
    have hbound : x.toNat * 3 + y.toNat * W * 3 + 2 < fb.length := by
      rw [hfb]
      obtain ⟨Hm, rfl⟩ : ∃ Hm, H = Hm + 1 := ⟨H - 1, by omega⟩
      have h1 : x.toNat + 1 ≤ W := by omega
      have h2 : y.toNat ≤ Hm := by omega
      have ha := Nat.mul_le_mul_right 3 h1
      have hb := Nat.mul_le_mul_right 3 (Nat.mul_le_mul_right W h2)
      have hr : W * 3 + Hm * W * 3 = W * (Hm + 1) * 3 := by ring
      omega
    have hr1 : color &&& 255 = color % 256 := land255 color
    have hr2 : color >>> 8 &&& 255 = color / 256 % 256 := by
      rw [land255, Nat.shiftRight_eq_div_pow]
    have hr3 : color >>> 16 &&& 255 = color / 65536 % 256 := by
      rw [land255, Nat.shiftRight_eq_div_pow]
    refine ⟨by simp [List.length_set], ?_, ?_, ?_, ?_⟩
    · rw [List.getElem?_set, if_neg (by omega), List.getElem?_set,
          if_neg (by omega), List.getElem?_set, if_pos rfl,
          if_pos (by omega), hr1]
    · rw [List.getElem?_set, if_neg (by omega), List.getElem?_set,
          if_pos rfl, if_pos (by simp only [List.length_set]; omega), hr2]
    · rw [List.getElem?_set, if_pos rfl,
          if_pos (by simp only [List.length_set]; omega), hr3]
    · intro i hi1 hi2 hi3
      rw [List.getElem?_set, if_neg (by omega), List.getElem?_set,
          if_neg (by omega), List.getElem?_set, if_neg (by omega)]

/-- C10 witness: on a 2x2 framebuffer, setting pixel (1, 1) with color
0x030201 writes R=1, G=2, B=3 at offset 9 and leaves byte 0 alone. -/
theorem C10_crt_set_pixel_witness :
    (crt_set_pixel 2 2 (List.replicate 12 0) 1 1 197121)[9]? = some 1
    ∧ (crt_set_pixel 2 2 (List.replicate 12 0) 1 1 197121)[0]?
        = (List.replicate 12 (0 : Nat))[0]? := by
  have h := (C10_crt_set_pixel 2 2 (List.replicate 12 0) 1 1 197121
    (by rw [List.length_replicate])).2 (by norm_num) (by norm_num)
    (by norm_num) (by norm_num)
  refine ⟨?_, ?_⟩
  · have h2 := h.2.1
    norm_num at h2 ⊢
    exact h2
  · have h5 := h.2.2.2.2 0 (by norm_num) (by norm_num) (by norm_num)
    norm_num at h5 ⊢
    exact h5

end C64Kitty
